import Mathlib

/-!
Verification of the house-prices feature-engineering notebook
(`feature-engineering-for-house-prices.ipynb`).

The notebook is a linear pipeline over one pandas dataframe:
`load_data` (concat train/test, then `clean`, `encode`, `impute`),
a `score_dataset` cross-validated scorer, derived-feature builders
(`counts`, ...), a `CrossFoldEncoder` for out-of-fold target encoding,
and a final submission CSV export.

We embed the dataframe shallowly: a column is a name, a statistical
dtype (numeric, object, or categorical with its level list), and a list
of cells; a cell is `Option Value` where `none` models a pandas missing
value (NaN).  Numbers are modelled as rationals; the real-valued scoring
step (`np.log`, `np.sqrt`, model predictions) is modelled over `ℝ`.
-/

/-- A cell value: a (rational) number or a string.  Pandas floats are
modelled as rationals; the pipeline does no float-specific arithmetic
outside the real-valued scoring step, which is modelled over `ℝ`. -/
inductive Value where
  | num (q : ℚ)
  | str (s : String)
deriving DecidableEq, Repr

/-- The statistical dtype of a column: numeric (`select_dtypes("number")`),
plain object, or categorical with its list of levels and `ordered` flag
(`CategoricalDtype`). -/
inductive Dtype where
  | number
  | obj
  | cat (levels : List Value) (ordered : Bool)
deriving DecidableEq, Repr

/-- One dataframe column: label, dtype and cells.  `none` is a missing
value (NaN). -/
structure Col where
  name : String
  dtype : Dtype
  data : List (Option Value)
deriving DecidableEq, Repr

/-- A dataframe: a row index (the `Id` labels) plus columns. -/
structure DF where
  index : List Int
  cols : List Col
deriving DecidableEq, Repr

/-- Number of rows of a dataframe. -/
def DF.nrows (df : DF) : Nat := df.index.length

/-- Well-formedness: every column has one cell per row. -/
def WF (df : DF) : Prop := ∀ c ∈ df.cols, c.data.length = df.index.length

instance : DecidablePred WF := fun df =>
  inferInstanceAs (Decidable (∀ c ∈ df.cols, c.data.length = df.index.length))

/-- The cells of the column labelled `nm` (`df[nm]`).  The source raises
`KeyError` when the label is absent; the embedding then returns an
all-missing column of the right length, and every theorem that depends
on a column's content assumes its presence. -/
def getColData (df : DF) (nm : String) : List (Option Value) :=
  match df.cols.find? (fun c => c.name == nm) with
  | some c => c.data
  | none => List.replicate df.nrows none

/- ### KFold(n_splits=5)

`sklearn.model_selection.KFold` without shuffling splits row positions
`0 .. n-1` into five contiguous folds; the first `n % 5` folds have
`n / 5 + 1` rows and the rest have `n / 5` rows.  For fold `k`,
the test (held-out) indices are the fold itself and the train indices
are all remaining positions, in ascending order. -/

/-- Size of fold `k` when splitting `n` rows into 5 folds. -/
def foldSize (n k : Nat) : Nat := n / 5 + if k < n % 5 then 1 else 0

/-- First row position of fold `k`. -/
def foldStart (n k : Nat) : Nat := k * (n / 5) + min k (n % 5)

/-- The held-out (test) row positions of fold `k`, in ascending order. -/
def testIdx (n k : Nat) : List Nat :=
  (List.range (foldSize n k)).map (fun i => i + foldStart n k)

/-- The training row positions of fold `k`: all positions not in the
fold, in ascending order. -/
def trainIdx (n k : Nat) : List Nat :=
  (List.range n).filter (fun i => decide (i ∉ testIdx n k))

/-- The fold that row position `i` belongs to (there are five folds). -/
def foldOf (n i : Nat) : Nat :=
  if i < foldStart n 1 then 0
  else if i < foldStart n 2 then 1
  else if i < foldStart n 3 then 2
  else if i < foldStart n 4 then 3
  else 4

/- ### CrossFoldEncoder

The notebook's `CrossFoldEncoder` is generic in the underlying
`category_encoders` encoder.  Those encoders are fitted on a dataframe
and a target and then transform a dataframe row by row (each row's
output depends only on the fitted state and that row), so we model an
encoder as a function from the fitted data (rows and targets) to a
per-row transform.  A single encoded column (`cols=[...]` with one
name, as used in the notebook) is a list of rationals. -/

/-- An encoder in the sense of `category_encoders`: fitting data
(feature rows and targets) determines a row-wise transform. -/
def Encoder (ρ : Type) : Type := List ρ → List ℚ → ρ → ℚ

/-- The encoder fitted on fold `k`'s `idx_encode` split: in
`fit_transform`, `fitted_encoder.fit(X.iloc[idx_encode, :],
y.iloc[idx_encode])` where `idx_encode` is the first component of
`KFold.split`, i.e. `trainIdx`. -/
def fittedEnc {ρ : Type} (E : Encoder ρ) (n : Nat) (X : Nat → ρ) (y : Nat → ℚ) (k : Nat) :
    ρ → ℚ :=
  E ((trainIdx n k).map X) ((trainIdx n k).map y)

/-- `CrossFoldEncoder.fit_transform`: for each of the five folds, fit an
encoder on the fold's complement and transform the held-out rows
(`X.iloc[idx_train, :]`); the per-fold blocks are concatenated
(`pd.concat`), which restores the original row order because the folds
are contiguous and ascending. -/
def fitTransform {ρ : Type} (E : Encoder ρ) (n : Nat) (X : Nat → ρ) (y : Nat → ℚ) :
    List ℚ :=
  (List.range 5).flatMap (fun k => (testIdx n k).map (fun i => fittedEnc E n X y k (X i)))

/-- Elementwise addition of two encoded columns,
`x.add(y, fill_value=0)`: positions present in only one operand keep
that operand's value. -/
def padAdd : List ℚ → List ℚ → List ℚ
  | [], ys => ys
  | x :: xs, [] => x :: xs
  | x :: xs, y :: ys => (x + y) :: padAdd xs ys

/-- `CrossFoldEncoder.transform`: transform the given `m` rows with each
of the five fitted encoders, sum the resulting columns with
`functools.reduce (lambda x, y: x.add(y, fill_value=0))`, and divide by
the number of fitted encoders. -/
def cfeTransform {ρ : Type} (E : Encoder ρ) (n : Nat) (X : Nat → ρ) (y : Nat → ℚ)
    (m : Nat) (Xt : Nat → ρ) : List ℚ :=
  let blocks := (List.range 5).map (fun k => (List.range m).map (fun i => fittedEnc E n X y k (Xt i)))
  (match blocks with
    | [] => []
    | b :: bs => bs.foldl padAdd b).map (fun q => q / (blocks.length : ℚ))

/-- The `category_encoders.MEstimateEncoder` statistic on one column,
as instantiated in the notebook (`CrossFoldEncoder(MEstimateEncoder,
m=1)`): with prior the mean target over the fitted data, a category `c`
is encoded as `(sum of targets at c + m * prior) / (count of c + m)`.
An unseen category gets the prior (`count = 0`). -/
def mEstimate (m : ℚ) : Encoder String := fun fx fy c =>
  let prior := fy.sum / (fx.length : ℚ)
  let hits := (fx.zip fy).filter (fun p => p.1 == c)
  ((hits.map (fun p => p.2)).sum + m * prior) / ((hits.length : ℚ) + m)

/- ### clean -/

/-- The `Exterior2nd` typo fixes:
`replace({"Brk Cmn": "BrkComm", "Wd Shng": "Wd Sdng", "CmentBd": "CemntBd"})`. -/
def replaceE2nd (v : Value) : Value :=
  if v = Value.str ("Brk Cmn") then Value.str ("BrkComm")
  else if v = Value.str ("Wd Shng") then Value.str ("Wd Sdng")
  else if v = Value.str ("CmentBd") then Value.str ("CemntBd")
  else v

/-- First step of `clean`: map the replacement over the `Exterior2nd`
column (NaN and unmatched values are unchanged by `Series.replace`). -/
def cleanE2nd (df : DF) : DF :=
  { df with cols := df.cols.map (fun c =>
      if c.name == "Exterior2nd" then { c with data := c.data.map (Option.map replaceE2nd) }
      else c) }

/-- The `where` condition `df.GarageYrBlt <= 2010`: true exactly for a
numeric cell at most 2010; missing values compare false (NaN). -/
def garageCond (o : Option Value) : Bool :=
  match o with
  | some (Value.num q) => decide (q ≤ 2010)
  | _ => false

/-- Second step of `clean`:
`df["GarageYrBlt"] = df["GarageYrBlt"].where(df.GarageYrBlt <= 2010, df.YearBuilt)`,
keeping each entry where the condition holds and substituting the row's
`YearBuilt` value elsewhere. -/
def cleanGarage (df : DF) : DF :=
  let yb := getColData df "YearBuilt"
  { df with cols := df.cols.map (fun c =>
      if c.name == "GarageYrBlt" then
        { c with data := List.zipWith (fun g y => if garageCond g then g else y) c.data yb }
      else c) }

/-- The `rename` mapping of `clean` on a column label. -/
def renameFn (nm : String) : String :=
  if nm == "1stFlrSF" then "FirstFlrSF"
  else if nm == "2ndFlrSF" then "SecondFlrSF"
  else if nm == "3SsnPorch" then "Threeseasonporch"
  else nm

/-- Third step of `clean`: `df.rename(columns={...}, inplace=True)`. -/
def renameCols (df : DF) : DF :=
  { df with cols := df.cols.map (fun c => { c with name := renameFn c.name }) }

/-- The notebook's `clean`: typo replacement, `GarageYrBlt` repair,
column renaming, in that order. -/
def clean (df : DF) : DF := renameCols (cleanGarage (cleanE2nd df))

/- ### encode -/

/-- The nominative (unordered) categorical features. -/
def features_nom : List String :=
  ["MSSubClass", "MSZoning", "Street", "Alley", "LandContour", "LotConfig",
   "Neighborhood", "Condition1", "Condition2", "BldgType", "HouseStyle",
   "RoofStyle", "RoofMatl", "Exterior1st", "Exterior2nd", "MasVnrType",
   "Foundation", "Heating", "CentralAir", "GarageType", "MiscFeature",
   "SaleType", "SaleCondition"]

/-- `five_levels = ["Po", "Fa", "TA", "Gd", "Ex"]`. -/
def fiveLevels : List Value :=
  [Value.str ("Po"), Value.str ("Fa"), Value.str ("TA"), Value.str ("Gd"), Value.str ("Ex")]

/-- `ten_levels = list(range(10))`. -/
def tenLevels : List Value := (List.range 10).map (fun i => Value.num (i : ℚ))

/-- The `ordered_levels` table before the `None` level is prepended. -/
def orderedLevels : List (String × List Value) :=
  [("OverallQual", tenLevels),
   ("OverallCond", tenLevels),
   ("ExterQual", fiveLevels),
   ("ExterCond", fiveLevels),
   ("BsmtQual", fiveLevels),
   ("BsmtCond", fiveLevels),
   ("HeatingQC", fiveLevels),
   ("KitchenQual", fiveLevels),
   ("FireplaceQu", fiveLevels),
   ("GarageQual", fiveLevels),
   ("GarageCond", fiveLevels),
   ("PoolQC", fiveLevels),
   ("LotShape", [Value.str ("Reg"), Value.str ("IR1"), Value.str ("IR2"), Value.str ("IR3")]),
   ("LandSlope", [Value.str ("Sev"), Value.str ("Mod"), Value.str ("Gtl")]),
   ("BsmtExposure", [Value.str ("No"), Value.str ("Mn"), Value.str ("Av"), Value.str ("Gd")]),
   ("BsmtFinType1", [Value.str ("Unf"), Value.str ("LwQ"), Value.str ("Rec"),
                     Value.str ("BLQ"), Value.str ("ALQ"), Value.str ("GLQ")]),
   ("BsmtFinType2", [Value.str ("Unf"), Value.str ("LwQ"), Value.str ("Rec"),
                     Value.str ("BLQ"), Value.str ("ALQ"), Value.str ("GLQ")]),
   ("Functional", [Value.str ("Sal"), Value.str ("Sev"), Value.str ("Maj1"),
                   Value.str ("Maj2"), Value.str ("Mod"), Value.str ("Min2"),
                   Value.str ("Min1"), Value.str ("Typ")]),
   ("GarageFinish", [Value.str ("Unf"), Value.str ("RFn"), Value.str ("Fin")]),
   ("PavedDrive", [Value.str ("N"), Value.str ("P"), Value.str ("Y")]),
   ("Utilities", [Value.str ("NoSeWa"), Value.str ("NoSewr"), Value.str ("AllPub")]),
   ("CentralAir", [Value.str ("N"), Value.str ("Y")]),
   ("Electrical", [Value.str ("Mix"), Value.str ("FuseP"), Value.str ("FuseF"),
                   Value.str ("FuseA"), Value.str ("SBrkr")]),
   ("Fence", [Value.str ("MnWw"), Value.str ("GdWo"), Value.str ("MnPrv"), Value.str ("GdPrv")])]

/-- `ordered_levels = {key: ["None"] + value for key, value in ordered_levels.items()}`. -/
def orderedLevelsNone : List (String × List Value) :=
  orderedLevels.map (fun p => (p.1, Value.str ("None") :: p.2))

/-- Distinct values of a column in order of first occurrence: the
categories that `astype("category")` infers from the data.  (Pandas
sorts the inferred categories; none of the verified properties depend
on their order, only on membership.) -/
def dedupFirst (l : List Value) : List Value :=
  l.foldl (fun acc v => if v ∈ acc then acc else acc ++ [v]) []

/-- Nominal encoding of one column: `astype("category")` followed by
`add_categories("None")` when `"None"` is not already a category. -/
def nomEncodeCol (c : Col) : Col :=
  let lv := dedupFirst (c.data.filterMap id)
  let lv2 := if Value.str ("None") ∈ lv then lv else lv ++ [Value.str ("None")]
  { c with dtype := Dtype.cat lv2 false }

/-- Ordinal encoding of one column:
`astype(CategoricalDtype(levels, ordered=True))`; values outside the
level list become missing. -/
def ordEncodeCol (c : Col) (lv : List Value) : Col :=
  { c with dtype := Dtype.cat lv true,
           data := c.data.map (fun o => o.bind (fun v => if v ∈ lv then some v else none)) }

/-- The effect of `encode`'s two loops on one column: the nominal loop
runs first, then the ordinal loop (so `CentralAir`, which appears in
both lists, ends up ordinal, as in the source).  The nominal step keeps
the column label, so both loops address the column by `c.name`. -/
def encodeCol (c : Col) : Col :=
  match orderedLevelsNone.lookup c.name with
  | some lv => ordEncodeCol (if c.name ∈ features_nom then nomEncodeCol c else c) lv
  | none => if c.name ∈ features_nom then nomEncodeCol c else c

/-- The notebook's `encode`.  Each loop iteration reads and writes a
single column, so with distinct column labels the two loops amount to
this per-column map.  (The source raises `KeyError` when a listed
column is absent; the embedding simply transforms the columns that are
present.) -/
def encode (df : DF) : DF := { df with cols := df.cols.map encodeCol }

/- ### impute -/

/-- The condition under which `impute` raises: `fillna("None")` on a
categorical column that actually has a missing value but no `"None"`
level is a pandas error. -/
def imputeRaises (df : DF) : Bool :=
  df.cols.any (fun c =>
    match c.dtype with
    | Dtype.cat lv _ => decide (none ∈ c.data) && !(decide (Value.str ("None") ∈ lv))
    | _ => false)

/-- The effect of `impute` on one column: numeric columns get
`fillna(0)`, categorical columns get `fillna("None")`, other columns
are untouched (they match neither `select_dtypes` call). -/
def imputeCol (c : Col) : Col :=
  match c.dtype with
  | Dtype.number => { c with data := c.data.map (fun o => some (o.getD (Value.num 0))) }
  | Dtype.cat _ _ => { c with data := c.data.map (fun o => some (o.getD (Value.str ("None")))) }
  | Dtype.obj => c

/-- The notebook's `impute`, `none` when pandas would raise. -/
def impute (df : DF) : Option DF :=
  if imputeRaises df then none else some { df with cols := df.cols.map imputeCol }

/- ### load_data -/

/-- `pd.concat([df_train, df_test])`: indices are concatenated; columns
are aligned by label, with positions missing from one frame filled with
NaN.  Columns of the first frame come first, in order, followed by the
columns only the second frame has.  (Dtype promotion of mismatched
columns is collapsed to `obj`; the pipeline concatenates raw CSV frames
whose shared columns agree.) -/
def concatDF (a b : DF) : DF :=
  let acols := a.cols.map (fun c =>
    match b.cols.find? (fun c2 => c2.name == c.name) with
    | some c2 => { name := c.name,
                   dtype := if c.dtype = c2.dtype then c.dtype else Dtype.obj,
                   data := c.data ++ c2.data }
    | none => { c with data := c.data ++ List.replicate b.nrows none })
  let bnew := (b.cols.filter (fun c2 => !(a.cols.any (fun c => c.name == c2.name)))).map
    (fun c2 => { c2 with data := List.replicate a.nrows none ++ c2.data })
  { index := a.index ++ b.index, cols := acols ++ bnew }

/-- Position of the first occurrence of a row label. -/
def idxOf? (x : Int) : List Int → Option Nat
  | [] => none
  | y :: ys => if y = x then some 0 else (idxOf? x ys).map (fun i => i + 1)

/-- `df.loc[labels, :]`: the rows with the given labels, in the given
order.  (`loc` raises `KeyError` for an absent label; the embedding
yields missing cells there, and the theorems only use labels present in
the index.) -/
def locRows (df : DF) (labels : List Int) : DF :=
  { index := labels,
    cols := df.cols.map (fun c =>
      { c with data := labels.map (fun l =>
          match idxOf? l df.index with
          | some p => (c.data.get? p).join
          | none => none) }) }

/-- The notebook's `load_data`, taking the two frames read from
`train.csv` and `test.csv` as inputs: concatenate the splits, run
`clean`, `encode`, `impute` in that order, and reform the splits with
`df.loc[df_train.index, :]` and `df.loc[df_test.index, :]`. -/
def loadData (a b : DF) : Option (DF × DF) :=
  (impute (encode (clean (concatDF a b)))).map
    (fun df => (locRows df a.index, locRows df b.index))

/- ### score_dataset -/

/-- The category code of one cell, `Series.cat.codes`: the position of
the value in the level list, `-1` for a missing value. -/
def codeCell (lv : List Value) (o : Option Value) : Option Value :=
  match o with
  | some v => some (Value.num ((lv.indexOf v : ℤ) : ℚ))
  | none => some (Value.num (-1))

/-- The labels produced by `X.select_dtypes(["category"])`, in column
order: the loop of `score_dataset` iterates over exactly these. -/
def catColNames (df : DF) : List String :=
  (df.cols.filter (fun c =>
    match c.dtype with
    | Dtype.cat _ _ => true
    | _ => false)).map (fun c => c.name)

/-- One iteration of the label-encoding loop of `score_dataset`:
`X[colname] = X[colname].cat.codes` reads the current column and
replaces it by its integer codes (an integer column). -/
def codesStep (df : DF) (nm : String) : DF :=
  match df.cols.find? (fun c => c.name == nm) with
  | some c =>
    match c.dtype with
    | Dtype.cat lv _ =>
      { df with cols := df.cols.map (fun c2 =>
          if c2.name == nm then { name := nm, dtype := Dtype.number, data := c.data.map (codeCell lv) }
          else c2) }
    | _ => df
  | none => df

/-- The in-place mutation `score_dataset` performs on its argument `X`:
label-encode every categorical column. -/
def labelEncodeInPlace (df : DF) : DF := (catColNames df).foldl codesStep df

/-- A regression estimator as `cross_val_score` uses it: fitting on
feature rows and targets yields a predictor on rows.  (`cross_val_score`
clones the estimator for each fold, so a fold's predictor depends only
on that fold's fitted data.) -/
def RegModel : Type := List (List (Option Value)) → List ℝ → List (Option Value) → ℝ

/-- Row `i` of a dataframe as a list of cells. -/
def rowCells (df : DF) (i : Nat) : List (Option Value) :=
  df.cols.map (fun c => (c.data.get? i).join)

/-- `cross_val_score(model, X, log_y, cv=5, scoring="neg_mean_squared_error")`:
for each of the five `KFold` folds, fit a clone of the model on the
training rows and return the negated mean squared error of its
predictions on the held-out rows. -/
noncomputable def crossValNegMSE (M : RegModel) (df : DF) (ly : Nat → ℝ) : List ℝ :=
  (List.range 5).map (fun k =>
    let pred := M ((trainIdx df.nrows k).map (rowCells df)) ((trainIdx df.nrows k).map ly)
    let sq := ((testIdx df.nrows k).map (fun i => (pred (rowCells df i) - ly i) ^ 2)).sum
    Neg.neg (sq / ((testIdx df.nrows k).length : ℝ)))

/-- The notebook's `score_dataset`, with the mutation of `X` made
explicit: it label-encodes the categorical columns of `X` in place,
takes `log_y = np.log(y)` (a fresh array, `y` itself is not written),
and returns `np.sqrt(-1 * cross_val_score(...).mean())`.  The result is
the final state `(X, y)` together with the score. -/
noncomputable def scoreDataset (df : DF) (y : Nat → ℝ) (M : RegModel) :
    (DF × (Nat → ℝ)) × ℝ :=
  let X := labelEncodeInPlace df
  let ly := fun i => Real.log (y i)
  let scores := crossValNegMSE M X ly
  ((X, y), Real.sqrt (-1 * (scores.sum / (scores.length : ℝ))))

/- ### counts -/

/-- The five porch-area columns summed by `counts`. -/
def porchNames : List String :=
  ["WoodDeckSF", "OpenPorchSF", "EnclosedPorch", "Threeseasonporch", "ScreenPorch"]

/-- The `.gt(0.0)` test on one cell: true exactly for a numeric value
strictly greater than zero; missing values compare false. -/
def gtZero (o : Option Value) : Bool :=
  match o with
  | some (Value.num q) => decide (0 < q)
  | _ => false

/-- The notebook's `counts`: a fresh one-column frame whose
`PorchTypes` column is `df[[five porch columns]].gt(0.0).sum(axis=1)`,
the per-row sum of the five boolean indicator columns. -/
def counts (df : DF) : DF :=
  let ind := porchNames.map (fun nm =>
    (getColData df nm).map (fun o => if gtZero o then (1 : ℚ) else 0))
  let s := ind.foldl (fun acc l => List.zipWith (fun a b => a + b) acc l)
    (List.replicate df.nrows (0 : ℚ))
  { index := df.index,
    cols := [{ name := "PorchTypes", dtype := Dtype.number,
               data := s.map (fun q => some (Value.num q)) }] }

/- ### submission export -/

/-- A small frame of already-rendered cells, as built by
`pd.DataFrame({'Id': X_test.index, 'SalePrice': predictions})`:
column names in dict order, one cell list per column.  Cell rendering
(of ids and float predictions) is outside the model; cells are taken as
strings. -/
structure SFrame where
  names : List String
  colsS : List (List String)

/-- `pd.DataFrame` from a dict of columns; pandas raises when the
columns have different lengths. -/
def mkFrameDict (pairs : List (String × List String)) : Option SFrame :=
  match pairs with
  | [] => some { names := [], colsS := [] }
  | p :: ps =>
    if ps.all (fun q => q.2.length == p.2.length) then
      some { names := pairs.map (fun q => q.1), colsS := pairs.map (fun q => q.2) }
    else none

/-- `DataFrame.to_csv`: the header record followed by one record per
row; with `index=True` a leading positional-index column is emitted,
with `index=False` it is omitted. -/
def toCsv (f : SFrame) (withIndex : Bool) : List (List String) :=
  let nrows := (f.colsS.head?.map List.length).getD 0
  ((if withIndex then [String.mk []] else []) ++ f.names) ::
    (List.range nrows).map (fun i =>
      (if withIndex then [toString i] else []) ++ f.colsS.map (fun c => c.getD i (String.mk [])))

/-- The submission cell:
`output = pd.DataFrame({'Id': X_test.index, 'SalePrice': predictions})`
followed by `output.to_csv('submission.csv', index=False)`; the single
file written holds exactly these records. -/
def submissionCsv (ids preds : List String) : Option (List (List String)) :=
  (mkFrameDict [("Id", ids), ("SalePrice", preds)]).map (fun f => toCsv f false)

/- ### KFold structure lemmas -/

theorem foldStart_succ (n k : Nat) : foldStart n (k + 1) = foldStart n k + foldSize n k := by
  simp only [foldStart, foldSize]
  rw [Nat.succ_mul]
  by_cases h : k < n % 5 <;> simp [h] <;> omega

theorem foldStart_five (n : Nat) : foldStart n 5 = n := by
  have h := Nat.div_add_mod n 5
  simp only [foldStart]
  omega

theorem mem_testIdx {n k i : Nat} :
    i ∈ testIdx n k ↔ foldStart n k ≤ i ∧ i < foldStart n k + foldSize n k := by
  simp only [testIdx, List.mem_map, List.mem_range]
  constructor
  · rintro ⟨j, hj, rfl⟩
    omega
  · rintro ⟨h1, h2⟩
    exact ⟨i - foldStart n k, by omega, by omega⟩

theorem foldOf_lt_five (n i : Nat) : foldOf n i < 5 := by
  simp only [foldOf]
  split_ifs <;> omega

theorem foldOf_eq_of_mem_testIdx {n k i : Nat} (hk : k < 5) (hi : i ∈ testIdx n k) :
    foldOf n i = k := by
  rw [mem_testIdx] at hi
  rw [← foldStart_succ] at hi
  simp only [foldOf]
  interval_cases k <;>
    simp only [foldStart] at hi ⊢ <;> split_ifs <;> omega

theorem mem_testIdx_foldOf {n r : Nat} (hr : r < n) : r ∈ testIdx n (foldOf n r) := by
  rw [mem_testIdx, ← foldStart_succ]
  have h5 : foldStart n 5 = n := foldStart_five n
  simp only [foldOf]
  split_ifs <;> simp only [foldStart] at * <;> omega

theorem mem_trainIdx {n k j : Nat} : j ∈ trainIdx n k ↔ j < n ∧ j ∉ testIdx n k := by
  simp [trainIdx, List.mem_filter, List.mem_range]

theorem not_mem_trainIdx_foldOf {n r : Nat} (hr : r < n) : r ∉ trainIdx n (foldOf n r) := by
  rw [mem_trainIdx]
  intro h
  exact h.2 (mem_testIdx_foldOf hr)

theorem trainIdx_other_fold {n r j : Nat} (hj : j ∈ trainIdx n (foldOf n r)) :
    foldOf n j ≠ foldOf n r := by
  rw [mem_trainIdx] at hj
  intro he
  apply hj.2
  rw [← he]
  exact mem_testIdx_foldOf hj.1

theorem range_eq_testIdx_concat (n : Nat) :
    List.range n = testIdx n 0 ++ (testIdx n 1 ++ (testIdx n 2 ++ (testIdx n 3 ++ (testIdx n 4 ++ [])))) := by
  have h0 : foldStart n 0 = 0 := by simp [foldStart]
  have hstep : ∀ k, List.range (foldStart n (k + 1)) =
      List.range (foldStart n k) ++ testIdx n k := by
    intro k
    rw [foldStart_succ, List.range_add]
    congr 1
    simp only [testIdx]
    exact List.map_congr_left (fun x _ => Nat.add_comm _ x)
  have h5 : List.range n = List.range (foldStart n 5) := by rw [foldStart_five]
  rw [h5, show (5 : Nat) = 4 + 1 from rfl, hstep, show (4 : Nat) = 3 + 1 from rfl, hstep,
    show (3 : Nat) = 2 + 1 from rfl, hstep, show (2 : Nat) = 1 + 1 from rfl, hstep,
    show (1 : Nat) = 0 + 1 from rfl, hstep, h0]
  simp [List.append_assoc]

theorem fitTransform_eq_map {ρ : Type} (E : Encoder ρ) (n : Nat) (X : Nat → ρ) (y : Nat → ℚ) :
    fitTransform E n X y = (List.range n).map (fun i => fittedEnc E n X y (foldOf n i) (X i)) := by
  have hb : ∀ k, k < 5 →
      (testIdx n k).map (fun i => fittedEnc E n X y k (X i)) =
        (testIdx n k).map (fun i => fittedEnc E n X y (foldOf n i) (X i)) := by
    intro k hk
    apply List.map_congr_left
    intro i hi
    rw [foldOf_eq_of_mem_testIdx hk hi]
  have h5 : List.range 5 = [0, 1, 2, 3, 4] := rfl
  unfold fitTransform
  rw [h5]
  simp only [List.flatMap_cons, List.flatMap_nil]
  rw [range_eq_testIdx_concat n]
  simp only [List.map_append, List.map_nil]
  rw [← hb 0 (by norm_num), ← hb 1 (by norm_num), ← hb 2 (by norm_num),
    ← hb 3 (by norm_num), ← hb 4 (by norm_num)]

theorem fitTransform_getElem {ρ : Type} (E : Encoder ρ) {n : Nat} (X : Nat → ρ) (y : Nat → ℚ)
    {r : Nat} (hr : r < n) :
    (fitTransform E n X y)[r]? = some (fittedEnc E n X y (foldOf n r) (X r)) := by
  rw [fitTransform_eq_map, List.getElem?_map, List.getElem?_range hr]
  rfl

/-- C1: in `CrossFoldEncoder.fit_transform`, each row's encoded value is
produced by the encoder fitted on that row's fold complement — rows of
other folds only — so changing the target at a held-out row leaves that
row's own encoded value unchanged. -/
theorem c1_out_of_fold_encoding {ρ : Type} (E : Encoder ρ) (n : Nat) (X : Nat → ρ)
    (y y' : Nat → ℚ) (r : Nat) (_hn : 5 ≤ n) (hr : r < n)
    (hy : ∀ j, j ≠ r → y j = y' j) :
    (∀ j ∈ trainIdx n (foldOf n r), foldOf n j ≠ foldOf n r) ∧
    (fitTransform E n X y)[r]? = some (fittedEnc E n X y (foldOf n r) (X r)) ∧
    (fitTransform E n X y)[r]? = (fitTransform E n X y')[r]? := by
  have hmap : (trainIdx n (foldOf n r)).map y = (trainIdx n (foldOf n r)).map y' := by
    apply List.map_congr_left
    intro j hj
    exact hy j (fun hjr => absurd (hjr ▸ hj) (not_mem_trainIdx_foldOf hr))
  have he : fittedEnc E n X y (foldOf n r) = fittedEnc E n X y' (foldOf n r) := by
    unfold fittedEnc
    rw [hmap]
  refine ⟨fun j hj => trainIdx_other_fold hj, fitTransform_getElem E X y hr, ?_⟩
  rw [fitTransform_getElem E X y hr, fitTransform_getElem E X y' hr, he]

theorem padAdd_map {α : Type} (l : List α) (f g : α → ℚ) :
    padAdd (l.map f) (l.map g) = l.map (fun x => f x + g x) := by
  induction l with
  | nil => rfl
  | cons a t ih => simp [padAdd, ih]

theorem cfeTransform_getElem {ρ : Type} (E : Encoder ρ) (n : Nat) (X : Nat → ρ) (y : Nat → ℚ)
    (m : Nat) (Xt : Nat → ρ) {i : Nat} (hi : i < m) :
    (cfeTransform E n X y m Xt)[i]? =
      some ((((List.range 5).map (fun k => fittedEnc E n X y k (Xt i))).sum) / 5) := by
  have h5 : List.range 5 = [0, 1, 2, 3, 4] := rfl
  unfold cfeTransform
  rw [h5]
  simp only [List.map_cons, List.map_nil, List.foldl_cons, List.foldl_nil,
    List.length_cons, List.length_nil]
  rw [padAdd_map, padAdd_map, padAdd_map, padAdd_map, List.map_map,
    List.getElem?_map, List.getElem?_range hi]
  simp only [Option.map_some', Function.comp_apply, List.sum_cons, List.sum_nil,
    Option.some.injEq]
  push_cast
  ring

/-- Witness for C1 at a concrete instance: the `MEstimateEncoder` with
`m = 1` on five rows of one category, with the target changed at the
held-out row `0`. -/
theorem c1_out_of_fold_encoding_witness :
    ((5 : Nat) ≤ 5 ∧ (0 : Nat) < 5 ∧
      (∀ j : Nat, j ≠ 0 → (fun _ : Nat => (0 : ℚ)) j = (fun j : Nat => if j = 0 then (1 : ℚ) else 0) j)) ∧
    ((∀ j ∈ trainIdx 5 (foldOf 5 0), foldOf 5 j ≠ foldOf 5 0) ∧
      (fitTransform (mEstimate 1) 5 (fun _ => "A") (fun _ : Nat => (0 : ℚ)))[0]? =
        some (fittedEnc (mEstimate 1) 5 (fun _ => "A") (fun _ : Nat => (0 : ℚ)) (foldOf 5 0)
          ((fun _ : Nat => "A") 0)) ∧
      (fitTransform (mEstimate 1) 5 (fun _ => "A") (fun _ : Nat => (0 : ℚ)))[0]? =
        (fitTransform (mEstimate 1) 5 (fun _ => "A") (fun j : Nat => if j = 0 then (1 : ℚ) else 0))[0]?) :=
  ⟨⟨by norm_num, by norm_num, fun j hj => by simp [hj]⟩,
    c1_out_of_fold_encoding (mEstimate 1) 5 (fun _ => "A") (fun _ => 0)
      (fun j => if j = 0 then 1 else 0) 0 (by norm_num) (by norm_num)
      (fun j hj => by simp [hj])⟩

/-- C2 counterexample: with the notebook's own encoder
(`MEstimateEncoder, m=1`), five one-row folds of a single category and
target `(0,0,0,0,5)`, the value `fit_transform` returns for row `0` is
the held-out fold-0 encoding `5/4`, not the mean `1` of the five
per-fold encoders' transforms of that row — so the claim that every
value the cross-fold encoder returns is the mean of the per-fold
transforms is false. -/
theorem c2_counterexample :
    ¬ ((fitTransform (mEstimate 1) 5 (fun _ => "A") (fun j : Nat => if j = 4 then (5 : ℚ) else 0))[0]? =
      some ((((List.range 5).map (fun k => fittedEnc (mEstimate 1) 5 (fun _ => "A")
        (fun j : Nat => if j = 4 then (5 : ℚ) else 0) k ((fun _ : Nat => "A") 0))).sum) / 5)) := by
  have e0 : trainIdx 5 0 = [1, 2, 3, 4] := by decide
  have e1 : trainIdx 5 1 = [0, 2, 3, 4] := by decide
  have e2 : trainIdx 5 2 = [0, 1, 3, 4] := by decide
  have e3 : trainIdx 5 3 = [0, 1, 2, 4] := by decide
  have e4 : trainIdx 5 4 = [0, 1, 2, 3] := by decide
  have hf : foldOf 5 0 = 0 := by decide
  have h5 : List.range 5 = [0, 1, 2, 3, 4] := rfl
  intro h
  rw [fitTransform_getElem (mEstimate 1) (fun _ => "A") _ (show (0 : Nat) < 5 by norm_num), hf,
    h5] at h
  simp only [List.map_cons, List.map_nil, List.sum_cons, List.sum_nil, fittedEnc,
    e0, e1, e2, e3, e4, Option.some.injEq] at h
  norm_num [mEstimate] at h

/-- C2 (amended): `CrossFoldEncoder` fits one encoder per fold;
`transform` (used for the test data) returns for every row the mean of
the five per-fold encoders' transforms of that row, while
`fit_transform` returns for each row the transform of the single
encoder fitted on the complement of that row's fold. -/
theorem c2_crossfold_transform_mean {ρ : Type} (E : Encoder ρ) (n : Nat) (X : Nat → ρ)
    (y : Nat → ℚ) (m : Nat) (Xt : Nat → ρ) (i r : Nat) (hi : i < m) (hr : r < n) :
    (cfeTransform E n X y m Xt)[i]? =
      some ((((List.range 5).map (fun k => fittedEnc E n X y k (Xt i))).sum) / 5) ∧
    (fitTransform E n X y)[r]? = some (fittedEnc E n X y (foldOf n r) (X r)) :=
  ⟨cfeTransform_getElem E n X y m Xt hi, fitTransform_getElem E X y hr⟩

/-- Witness for the amended C2 at a concrete instance. -/
theorem c2_crossfold_transform_mean_witness :
    ((0 : Nat) < 1 ∧ (0 : Nat) < 5) ∧
    ((cfeTransform (mEstimate 1) 5 (fun _ => "A") (fun _ : Nat => (0 : ℚ)) 1 (fun _ => "B"))[0]? =
      some ((((List.range 5).map (fun k => fittedEnc (mEstimate 1) 5 (fun _ => "A")
        (fun _ : Nat => (0 : ℚ)) k ((fun _ : Nat => "B") 0))).sum) / 5) ∧
    (fitTransform (mEstimate 1) 5 (fun _ => "A") (fun _ : Nat => (0 : ℚ)))[0]? =
      some (fittedEnc (mEstimate 1) 5 (fun _ => "A") (fun _ : Nat => (0 : ℚ)) (foldOf 5 0)
        ((fun _ : Nat => "A") 0))) :=
  ⟨⟨by norm_num, by norm_num⟩,
    c2_crossfold_transform_mean (mEstimate 1) 5 (fun _ => "A") (fun _ => 0) 1 (fun _ => "B")
      0 0 (by norm_num) (by norm_num)⟩

/- ### encode / impute lemmas -/

theorem lookup_mem {l : List (String × List Value)} {a : String} {b : List Value}
    (h : l.lookup a = some b) : (a, b) ∈ l := by
  induction l with
  | nil => simp [List.lookup] at h
  | cons p t ih =>
    obtain ⟨k, v⟩ := p
    rw [List.lookup_cons] at h
    by_cases he : a == k
    · simp [he] at h
      subst h
      simp at he
      subst he
      exact List.mem_cons_self _ _
    · simp [he] at h
      exact List.mem_cons_of_mem _ (ih h)

theorem orderedLevelsNone_head {a : String} {L : List Value}
    (hp : (a, L) ∈ orderedLevelsNone) : ∃ t, L = Value.str ("None") :: t := by
  simp only [orderedLevelsNone, List.mem_map] at hp
  obtain ⟨q, -, he⟩ := hp
  obtain ⟨-, h2⟩ := Prod.mk.injEq .. ▸ he
  exact ⟨q.2, h2.symm⟩

theorem nomEncodeCol_name (c : Col) : (nomEncodeCol c).name = c.name := rfl

theorem nomEncodeCol_dtype (c : Col) :
    ∃ lv, (nomEncodeCol c).dtype = Dtype.cat lv false ∧ Value.str ("None") ∈ lv := by
  unfold nomEncodeCol
  by_cases h : Value.str ("None") ∈ dedupFirst (c.data.filterMap id)
  · exact ⟨_, by simp [h], h⟩
  · refine ⟨dedupFirst (c.data.filterMap id) ++ [Value.str ("None")], ?_, ?_⟩
    · simp [h]
    · simp

theorem encodeCol_name (c : Col) : (encodeCol c).name = c.name := by
  unfold encodeCol
  split
  · simp only [ordEncodeCol]
    split <;> rfl
  · split <;> rfl

theorem imputeCol_name (c : Col) : (imputeCol c).name = c.name := by
  unfold imputeCol
  split <;> rfl

theorem imputeCol_dtype (c : Col) : (imputeCol c).dtype = c.dtype := by
  unfold imputeCol
  split <;> simp_all

theorem impute_eq_some {df df2 : DF} (h : impute df = some df2) :
    imputeRaises df = false ∧ df2 = { df with cols := df.cols.map imputeCol } := by
  unfold impute at h
  split at h
  · exact absurd h (by simp)
  · exact ⟨by simp_all, (Option.some.injEq _ _ ▸ h).symm⟩

theorem impute_name_dtype {df df2 : DF} (h : impute df = some df2) :
    df2.cols.map (fun x => (x.name, x.dtype)) = df.cols.map (fun x => (x.name, x.dtype)) ∧
      df2.index = df.index := by
  obtain ⟨-, rfl⟩ := impute_eq_some h
  refine ⟨?_, rfl⟩
  rw [List.map_map]
  apply List.map_congr_left
  intro x _
  simp [imputeCol_name, imputeCol_dtype, Function.comp]

theorem encodeCol_dtype_nom {c : Col} (h : c.name ∈ features_nom) :
    ∃ lv o, (encodeCol c).dtype = Dtype.cat lv o ∧ Value.str ("None") ∈ lv := by
  unfold encodeCol
  split
  · rename_i L hl
    obtain ⟨t, ht⟩ := orderedLevelsNone_head (lookup_mem hl)
    refine ⟨L, true, by simp [ordEncodeCol], ?_⟩
    rw [ht]
    exact List.mem_cons_self _ _
  · simp only [h, if_true]
    obtain ⟨lv, hd, hm⟩ := nomEncodeCol_dtype c
    exact ⟨lv, false, hd, hm⟩

theorem encodeCol_dtype_ord {c : Col} {L : List Value}
    (h : orderedLevelsNone.lookup c.name = some L) :
    (encodeCol c).dtype = Dtype.cat L true ∧ L.head? = some (Value.str ("None")) := by
  obtain ⟨t, ht⟩ := orderedLevelsNone_head (lookup_mem h)
  unfold encodeCol
  rw [h]
  exact ⟨by simp [ordEncodeCol], by rw [ht]; rfl⟩

/-- C7: after `encode`, every column whose label is in `features_nom`
is categorical with `"None"` among its categories; every column whose
label is in `ordered_levels` carries exactly its fixed ordered level
list with `"None"` prepended as first level; and `impute` preserves the
name and dtype of every column. -/
theorem c7_encode_dtypes (df : DF) (c : Col) (hc : c ∈ (encode df).cols) :
    (c.name ∈ features_nom → ∃ lv o, c.dtype = Dtype.cat lv o ∧ Value.str ("None") ∈ lv) ∧
    (∀ L, orderedLevelsNone.lookup c.name = some L →
      c.dtype = Dtype.cat L true ∧ L.head? = some (Value.str ("None"))) ∧
    (∀ df2, impute (encode df) = some df2 →
      df2.cols.map (fun x => (x.name, x.dtype)) = (encode df).cols.map (fun x => (x.name, x.dtype))) := by
  simp only [encode] at hc
  obtain ⟨c0, hc0, rfl⟩ := List.mem_map.1 hc
  rw [encodeCol_name]
  exact ⟨fun hnom => encodeCol_dtype_nom hnom,
    fun L hL => encodeCol_dtype_ord hL,
    fun df2 h2 => (impute_name_dtype h2).1⟩

/-- A concrete one-column frame used to witness the dtype claims. -/
def msZoningCol : Col := { name := "MSZoning", dtype := Dtype.obj, data := [none] }

/-- The one-column dataframe holding `msZoningCol`. -/
def msZoningDF : DF := { index := [1], cols := [msZoningCol] }

/-- Witness for C7 at a concrete one-column dataframe. -/
theorem c7_encode_dtypes_witness :
    (encodeCol msZoningCol ∈ (encode msZoningDF).cols) ∧
    (((encodeCol msZoningCol).name ∈ features_nom →
        ∃ lv o, (encodeCol msZoningCol).dtype = Dtype.cat lv o ∧ Value.str ("None") ∈ lv) ∧
      (∀ L, orderedLevelsNone.lookup (encodeCol msZoningCol).name = some L →
        (encodeCol msZoningCol).dtype = Dtype.cat L true ∧
          L.head? = some (Value.str ("None"))) ∧
      (∀ df2, impute (encode msZoningDF) = some df2 →
        df2.cols.map (fun x => (x.name, x.dtype)) =
          (encode msZoningDF).cols.map (fun x => (x.name, x.dtype)))) := by
  have hm : encodeCol msZoningCol ∈ (encode msZoningDF).cols := by
    simp [encode, msZoningDF]
  exact ⟨hm, c7_encode_dtypes _ _ hm⟩

/- ### clean shape lemmas -/

theorem cleanE2nd_shape {df : DF} {c2 : Col} (h : c2 ∈ (cleanE2nd df).cols) :
    ∃ c ∈ df.cols, c2.name = c.name ∧ c2.dtype = c.dtype := by
  simp only [cleanE2nd, List.mem_map] at h
  obtain ⟨c, hc, rfl⟩ := h
  refine ⟨c, hc, ?_, ?_⟩ <;> split <;> rfl

theorem cleanGarage_shape {df : DF} {c2 : Col} (h : c2 ∈ (cleanGarage df).cols) :
    ∃ c ∈ df.cols, c2.name = c.name ∧ c2.dtype = c.dtype := by
  simp only [cleanGarage, List.mem_map] at h
  obtain ⟨c, hc, rfl⟩ := h
  refine ⟨c, hc, ?_, ?_⟩ <;> split <;> rfl

theorem renameCols_shape {df : DF} {c2 : Col} (h : c2 ∈ (renameCols df).cols) :
    ∃ c ∈ df.cols, c2.name = renameFn c.name ∧ c2.dtype = c.dtype := by
  simp only [renameCols, List.mem_map] at h
  obtain ⟨c, hc, rfl⟩ := h
  exact ⟨c, hc, rfl, rfl⟩

theorem clean_shape {df : DF} {c2 : Col} (h : c2 ∈ (clean df).cols) :
    ∃ c ∈ df.cols, c2.name = renameFn c.name ∧ c2.dtype = c.dtype := by
  obtain ⟨c1, hc1, hn1, hd1⟩ := renameCols_shape h
  obtain ⟨c0, hc0, hn0, hd0⟩ := cleanGarage_shape hc1
  obtain ⟨c, hc, hn, hd⟩ := cleanE2nd_shape hc0
  exact ⟨c, hc, by rw [hn1, hn0, hn], by rw [hd1, hd0, hd]⟩

theorem renameFn_eq_of_mem_nom {nm : String} (h : nm ∈ features_nom) : renameFn nm = nm := by
  unfold renameFn
  split_ifs with h1 h2 h3
  · simp only [beq_iff_eq] at h1
    subst h1
    exact absurd h (by decide)
  · simp only [beq_iff_eq] at h2
    subst h2
    exact absurd h (by decide)
  · simp only [beq_iff_eq] at h3
    subst h3
    exact absurd h (by decide)
  · rfl

theorem renameFn_eq_of_lookup {nm : String} (h : (orderedLevelsNone.lookup nm).isSome) :
    renameFn nm = nm := by
  unfold renameFn
  split_ifs with h1 h2 h3
  · simp only [beq_iff_eq] at h1
    subst h1
    exact absurd h (by decide)
  · simp only [beq_iff_eq] at h2
    subst h2
    exact absurd h (by decide)
  · simp only [beq_iff_eq] at h3
    subst h3
    exact absurd h (by decide)
  · rfl

theorem clean_schema {df : DF}
    (hs : ∀ c ∈ df.cols, c.dtype = Dtype.number ∨ c.name ∈ features_nom ∨
      (orderedLevelsNone.lookup c.name).isSome) :
    ∀ c2 ∈ (clean df).cols, c2.dtype = Dtype.number ∨ c2.name ∈ features_nom ∨
      (orderedLevelsNone.lookup c2.name).isSome := by
  intro c2 h
  obtain ⟨c, hc, hname, hdtype⟩ := clean_shape h
  rcases hs c hc with h1 | h1 | h1
  · left
    rw [hdtype]
    exact h1
  · right
    left
    rw [hname, renameFn_eq_of_mem_nom h1]
    exact h1
  · right
    right
    rw [hname, renameFn_eq_of_lookup h1]
    exact h1

/- ### encode / impute interaction -/

theorem encodeCol_id_of_not_listed {c : Col} (hlook : orderedLevelsNone.lookup c.name = none)
    (hnom : c.name ∉ features_nom) : encodeCol c = c := by
  unfold encodeCol
  rw [hlook]
  simp [hnom]

theorem encodeCol_number_or_cat {c : Col}
    (h : c.dtype = Dtype.number ∨ c.name ∈ features_nom ∨
      (orderedLevelsNone.lookup c.name).isSome) :
    (encodeCol c).dtype = Dtype.number ∨
      ∃ lv o, (encodeCol c).dtype = Dtype.cat lv o ∧ Value.str ("None") ∈ lv := by
  cases hlook : orderedLevelsNone.lookup c.name with
  | some L =>
    obtain ⟨hd, hh⟩ := encodeCol_dtype_ord hlook
    right
    refine ⟨L, true, hd, ?_⟩
    cases L with
    | nil => simp at hh
    | cons a t =>
      simp only [List.head?_cons, Option.some.injEq] at hh
      rw [hh]
      exact List.mem_cons_self _ _
  | none =>
    by_cases hnom : c.name ∈ features_nom
    · right
      obtain ⟨lv, o, hd, hm⟩ := encodeCol_dtype_nom hnom
      exact ⟨lv, o, hd, hm⟩
    · left
      rw [encodeCol_id_of_not_listed hlook hnom]
      rcases h with h1 | h1 | h1
      · exact h1
      · exact absurd h1 hnom
      · rw [hlook] at h1
        simp at h1

theorem imputeRaises_encode_eq_false {df : DF}
    (hs : ∀ c ∈ df.cols, c.dtype = Dtype.number ∨ c.name ∈ features_nom ∨
      (orderedLevelsNone.lookup c.name).isSome) :
    imputeRaises (encode df) = false := by
  rw [imputeRaises, List.any_eq_false]
  intro ec hec
  simp only [encode, List.mem_map] at hec
  obtain ⟨c, hc, rfl⟩ := hec
  rcases encodeCol_number_or_cat (hs c hc) with hd | ⟨lv, o, hd, hm⟩
  · rw [hd]
    simp
  · rw [hd]
    simp [hm]

theorem imputeCol_data_number {c : Col} (h : c.dtype = Dtype.number) :
    (imputeCol c).data = c.data.map (fun o => some (o.getD (Value.num 0))) := by
  rcases c with ⟨nm, dt, data⟩
  dsimp at h
  subst h
  rfl

theorem imputeCol_data_cat {c : Col} {lv : List Value} {ob : Bool}
    (h : c.dtype = Dtype.cat lv ob) :
    (imputeCol c).data = c.data.map (fun x => some (x.getD (Value.str ("None")))) := by
  rcases c with ⟨nm, dt, data⟩
  dsimp at h
  subst h
  rfl

/-- C3: on any frame of the competition schema (every column numeric or
listed in `features_nom` or `ordered_levels`), preprocessing succeeds;
`impute` replaces every missing value of a numeric column with `0` and
every missing value of a categorical column with `"None"`, leaves
present values alone, and afterwards no missing value remains anywhere
in the dataframe. -/
theorem c3_impute_fills (df : DF)
    (hs : ∀ c ∈ df.cols, c.dtype = Dtype.number ∨ c.name ∈ features_nom ∨
      (orderedLevelsNone.lookup c.name).isSome) :
    ∃ df2, impute (encode (clean df)) = some df2 ∧
      (∀ c ∈ df2.cols, ∀ o ∈ c.data, o.isSome) ∧
      (∀ (ci : Nat) (c c2 : Col), (encode (clean df)).cols[ci]? = some c →
        df2.cols[ci]? = some c2 →
        c2.name = c.name ∧ c2.dtype = c.dtype ∧
        ∀ (j : Nat), c2.data[j]? = (c.data[j]?).map (fun o =>
          some (o.getD (match c.dtype with
            | Dtype.number => Value.num 0
            | _ => Value.str ("None"))))) := by
  have hs2 := clean_schema hs
  have hr := imputeRaises_encode_eq_false hs2
  have hshape : ∀ ec ∈ (encode (clean df)).cols, (ec.dtype = Dtype.number ∨
      ∃ lv o, ec.dtype = Dtype.cat lv o ∧ Value.str ("None") ∈ lv) := by
    intro ec hec
    simp only [encode, List.mem_map] at hec
    obtain ⟨c0, hc0, rfl⟩ := hec
    exact encodeCol_number_or_cat (hs2 c0 hc0)
  refine ⟨{ encode (clean df) with cols := (encode (clean df)).cols.map imputeCol },
    by simp [impute, hr], ?_, ?_⟩
  · intro c hcmem o ho
    simp only [List.mem_map] at hcmem
    obtain ⟨ec, hec, rfl⟩ := hcmem
    rcases hshape ec hec with hd | ⟨lv, ob, hd, -⟩
    · rw [imputeCol_data_number hd] at ho
      simp only [List.mem_map] at ho
      obtain ⟨x, -, rfl⟩ := ho
      rfl
    · rw [imputeCol_data_cat hd] at ho
      simp only [List.mem_map] at ho
      obtain ⟨x, -, rfl⟩ := ho
      rfl
  · intro ci c c2 h1 h2
    simp only [List.getElem?_map, h1, Option.map_some', Option.some.injEq] at h2
    subst h2
    refine ⟨imputeCol_name c, imputeCol_dtype c, ?_⟩
    intro j
    rcases hshape c (List.getElem?_mem h1) with hd | ⟨lv, ob, hd, -⟩
    · rw [imputeCol_data_number hd, hd]
      simp [List.getElem?_map]
    · rw [imputeCol_data_cat hd, hd]
      simp [List.getElem?_map]

/-- Witness for C3 at a concrete one-column dataframe of the schema. -/
theorem c3_impute_fills_witness :
    (∀ c ∈ msZoningDF.cols, c.dtype = Dtype.number ∨ c.name ∈ features_nom ∨
      (orderedLevelsNone.lookup c.name).isSome) ∧
    (∃ df2, impute (encode (clean msZoningDF)) = some df2 ∧
      (∀ c ∈ df2.cols, ∀ o ∈ c.data, o.isSome) ∧
      (∀ (ci : Nat) (c c2 : Col), (encode (clean msZoningDF)).cols[ci]? = some c →
        df2.cols[ci]? = some c2 →
        c2.name = c.name ∧ c2.dtype = c.dtype ∧
        ∀ (j : Nat), c2.data[j]? = (c.data[j]?).map (fun o =>
          some (o.getD (match c.dtype with
            | Dtype.number => Value.num 0
            | _ => Value.str ("None")))))) :=
  ⟨by decide, c3_impute_fills msZoningDF (by decide)⟩

/- ### lemmas for clean / column lookup -/

theorem find?_map_name {l : List Col} {f : Col → Col} (hf : ∀ c, (f c).name = c.name)
    (nm : String) :
    (l.map f).find? (fun c => c.name == nm) = (l.find? (fun c => c.name == nm)).map f := by
  induction l with
  | nil => rfl
  | cons a t ih =>
    simp only [List.map_cons, List.find?_cons, hf a]
    cases h : (a.name == nm)
    · simp [ih]
    · simp

theorem find?_map_rename {l : List Col} {nm : String} (hnm : ∀ s, renameFn s = nm ↔ s = nm) :
    (l.map (fun c => { c with name := renameFn c.name })).find? (fun c => c.name == nm) =
      (l.find? (fun c => c.name == nm)).map (fun c => { c with name := renameFn c.name }) := by
  induction l with
  | nil => rfl
  | cons a t ih =>
    simp only [List.map_cons, List.find?_cons]
    have he : ((renameFn a.name == nm) : Bool) = ((a.name == nm) : Bool) := by
      by_cases h : a.name = nm
      · have h2 : renameFn a.name = nm := (hnm a.name).2 h
        rw [h] at h2
        rw [h, h2]
      · have h2 : renameFn a.name ≠ nm := fun hc => h ((hnm a.name).1 hc)
        simp [h, h2]
    rw [he]
    cases h : (a.name == nm) <;> simp [h, ih]

theorem renameFn_garage (s : String) : renameFn s = "GarageYrBlt" ↔ s = "GarageYrBlt" := by
  unfold renameFn
  split_ifs with h1 h2 h3 <;> simp only [beq_iff_eq] at *
  · subst h1
    constructor <;> intro h <;> exact absurd h (by decide)
  · subst h2
    constructor <;> intro h <;> exact absurd h (by decide)
  · subst h3
    constructor <;> intro h <;> exact absurd h (by decide)

theorem getColData_eq_of_find? {df : DF} {nm : String} {c : Col}
    (h : df.cols.find? (fun x => x.name == nm) = some c) : getColData df nm = c.data := by
  unfold getColData
  rw [h]

theorem find?_cleanE2nd (df : DF) (nm : String) (hnm : nm ≠ "Exterior2nd") :
    (cleanE2nd df).cols.find? (fun c => c.name == nm) =
      df.cols.find? (fun c => c.name == nm) := by
  have hcols : (cleanE2nd df).cols = df.cols.map (fun c =>
      if c.name == "Exterior2nd" then { c with data := c.data.map (Option.map replaceE2nd) }
      else c) := rfl
  rw [hcols, find?_map_name (fun c => by split <;> rfl) nm]
  cases hfind : df.cols.find? (fun c => c.name == nm) with
  | none => rfl
  | some c =>
    have hcn : c.name = nm := by simpa using List.find?_some hfind
    have hne : (c.name == "Exterior2nd") = false := by
      simp [hcn, hnm]
    simp only [Option.map_some', hne, Bool.false_eq_true, if_false]

theorem getColData_cleanE2nd (df : DF) (nm : String) (hnm : nm ≠ "Exterior2nd") :
    getColData (cleanE2nd df) nm = getColData df nm := by
  unfold getColData
  rw [find?_cleanE2nd df nm hnm]
  rfl

theorem find?_cleanGarage (d : DF) {c : Col}
    (h : d.cols.find? (fun x => x.name == "GarageYrBlt") = some c) :
    (cleanGarage d).cols.find? (fun x => x.name == "GarageYrBlt") =
      some { name := c.name,
             dtype := c.dtype,
             data := List.zipWith (fun g y => if garageCond g then g else y) c.data
               (getColData d "YearBuilt") } := by
  have hcols : (cleanGarage d).cols = d.cols.map (fun c =>
      if c.name == "GarageYrBlt" then
        { c with
          data := List.zipWith (fun g y => if garageCond g then g else y) c.data
            (getColData d "YearBuilt") }
      else c) := rfl
  rw [hcols, find?_map_name (fun c => by split <;> rfl) _, h]
  have hcn : c.name = "GarageYrBlt" := by simpa using List.find?_some h
  simp [hcn]

theorem find?_renameCols_garage (d : DF) {c : Col}
    (h : d.cols.find? (fun x => x.name == "GarageYrBlt") = some c) :
    (renameCols d).cols.find? (fun x => x.name == "GarageYrBlt") =
      some { name := renameFn c.name, dtype := c.dtype, data := c.data } := by
  have hcols : (renameCols d).cols = d.cols.map (fun c => { c with name := renameFn c.name }) :=
    rfl
  rw [hcols, find?_map_rename renameFn_garage, h]
  rfl

theorem getColData_clean_garage (df : DF) {c : Col}
    (h : df.cols.find? (fun x => x.name == "GarageYrBlt") = some c) :
    getColData (clean df) "GarageYrBlt" =
      List.zipWith (fun g y => if garageCond g then g else y) c.data
        (getColData df "YearBuilt") := by
  have h1 := find?_cleanE2nd df "GarageYrBlt" (by decide)
  rw [h] at h1
  have h2 := find?_cleanGarage (cleanE2nd df) h1
  have h3 := find?_renameCols_garage (cleanGarage (cleanE2nd df)) h2
  have h4 := getColData_eq_of_find? h3
  rw [show clean df = renameCols (cleanGarage (cleanE2nd df)) from rfl, h4]
  dsimp only
  rw [getColData_cleanE2nd df "YearBuilt" (by decide)]

theorem zipWith_getElem?_eq {α β γ : Type} (f : α → β → γ) (a : List α) (b : List β)
    (j : Nat) {z : γ} (h : (List.zipWith f a b)[j]? = some z) :
    ∃ x y, a[j]? = some x ∧ b[j]? = some y ∧ z = f x y := by
  induction a generalizing b j with
  | nil => simp at h
  | cons x xs ih =>
    cases b with
    | nil => simp at h
    | cons y ys =>
      cases j with
      | zero =>
        simp only [List.zipWith_cons_cons, List.getElem?_cons_zero, Option.some.injEq] at h
        exact ⟨x, y, by simp, by simp, h.symm⟩
      | succ jj =>
        simp only [List.zipWith_cons_cons, List.getElem?_cons_succ] at h ⊢
        exact ih ys jj h

/-- C8 (amended): after `clean`, every `GarageYrBlt` entry is either a
number at most 2010 or the row's `YearBuilt` entry — corrupt or missing
entries are replaced by `YearBuilt` — and an entry can only remain
missing at a row where `YearBuilt` itself is missing. -/
theorem c8_garage_clean (df : DF) (c : Col)
    (hG : df.cols.find? (fun x => x.name == "GarageYrBlt") = some c)
    (j : Nat) (cell : Option Value)
    (hcell : (getColData (clean df) "GarageYrBlt")[j]? = some cell) :
    ((∃ q : ℚ, cell = some (Value.num q) ∧ q ≤ 2010) ∨
      (getColData df "YearBuilt")[j]? = some cell) ∧
    (∀ yv, (getColData df "YearBuilt")[j]? = some yv → yv.isSome → cell.isSome) := by
  rw [getColData_clean_garage df hG] at hcell
  obtain ⟨g, yv, hg, hy, rfl⟩ := zipWith_getElem?_eq _ _ _ _ hcell
  cases hcond : garageCond g with
  | true =>
    have hnum : ∃ q : ℚ, g = some (Value.num q) ∧ q ≤ 2010 := by
      unfold garageCond at hcond
      cases g with
      | none => simp at hcond
      | some v =>
        cases v with
        | num q =>
          simp only [decide_eq_true_eq] at hcond
          exact ⟨q, rfl, hcond⟩
        | str s => simp at hcond
    obtain ⟨q, rfl, hq⟩ := hnum
    constructor
    · left
      exact ⟨q, by simp [hcond], hq⟩
    · intro yv2 _ _
      simp [hcond]
  | false =>
    constructor
    · right
      rw [hy]
      simp [hcond]
    · intro yv2 hy2 hsome
      rw [hy] at hy2
      have : yv2 = yv := by simpa using hy2.symm
      subst this
      simpa [hcond] using hsome

/-- C8 counterexample: a one-row frame where both `GarageYrBlt` and
`YearBuilt` are missing; after `clean` the `GarageYrBlt` entry is still
missing, so the claim that no `GarageYrBlt` entry is missing after
`clean` fails. -/
theorem c8_counterexample :
    (getColData
      (clean
        { index := [1],
          cols := [{ name := "GarageYrBlt", dtype := Dtype.number, data := [none] },
                   { name := "YearBuilt", dtype := Dtype.number, data := [none] }] })
      "GarageYrBlt")[0]? = some none := by
  decide

/-- A concrete frame with a corrupt `GarageYrBlt` entry, for the C8
witness. -/
def garageWitnessDF : DF :=
  { index := [1],
    cols := [{ name := "GarageYrBlt", dtype := Dtype.number, data := [some (Value.num 2500)] },
             { name := "YearBuilt", dtype := Dtype.number, data := [some (Value.num 1990)] }] }

/-- The `GarageYrBlt` column of `garageWitnessDF`. -/
def garageWitnessCol : Col :=
  { name := "GarageYrBlt", dtype := Dtype.number, data := [some (Value.num 2500)] }

/-- Witness for the amended C8: the corrupt entry 2500 is replaced by
the row's `YearBuilt` value 1990. -/
theorem c8_garage_clean_witness :
    (garageWitnessDF.cols.find? (fun x => x.name == "GarageYrBlt") = some garageWitnessCol ∧
      (getColData (clean garageWitnessDF) "GarageYrBlt")[0]? =
        some (some (Value.num 1990))) ∧
    ((∃ q : ℚ, (some (Value.num 1990) : Option Value) = some (Value.num q) ∧ q ≤ 2010) ∨
      (getColData garageWitnessDF "YearBuilt")[0]? = some (some (Value.num 1990))) ∧
    (∀ yv, (getColData garageWitnessDF "YearBuilt")[0]? = some yv → yv.isSome →
      (some (Value.num 1990) : Option Value).isSome) := by
  have h1 : garageWitnessDF.cols.find? (fun x => x.name == "GarageYrBlt") =
      some garageWitnessCol := by decide
  have h2 : (getColData (clean garageWitnessDF) "GarageYrBlt")[0]? =
      some (some (Value.num 1990)) := by decide
  exact ⟨⟨h1, h2⟩, c8_garage_clean garageWitnessDF garageWitnessCol h1 0 _ h2⟩

/- ### score_dataset label-encoding lemmas -/

/-- The effect of the label-encoding loop on a single column: a
categorical column is replaced by its integer codes (an integer
column), every other column is untouched. -/
def codedCol (c : Col) : Col :=
  match c.dtype with
  | Dtype.cat lv _ => { name := c.name, dtype := Dtype.number, data := c.data.map (codeCell lv) }
  | _ => c

theorem codedCol_of_not_cat {c : Col} (h : ∀ lv ob, c.dtype ≠ Dtype.cat lv ob) :
    codedCol c = c := by
  unfold codedCol
  split
  · rename_i lv ob hdt
    exact absurd hdt (h lv ob)
  · rfl

theorem codedCol_of_cat {c : Col} {lv : List Value} {ob : Bool} (h : c.dtype = Dtype.cat lv ob) :
    codedCol c = { name := c.name, dtype := Dtype.number, data := c.data.map (codeCell lv) } := by
  rcases c with ⟨nm, dt, data⟩
  dsimp at h
  subst h
  rfl

theorem codesStep_index (df : DF) (nm : String) : (codesStep df nm).index = df.index := by
  unfold codesStep
  split
  · split <;> rfl
  · rfl

theorem codesStep_names (df : DF) (nm : String) :
    (codesStep df nm).cols.map Col.name = df.cols.map Col.name := by
  unfold codesStep
  split
  · rename_i c0 hfind
    split
    · rw [List.map_map]
      apply List.map_congr_left
      intro c2 _
      dsimp only [Function.comp]
      by_cases h : c2.name == nm
      · simp only [h, if_true]
        exact (by simpa using h : c2.name = nm).symm
      · simp only [h]
        simp
    · rfl
  · rfl

theorem eq_find?_col_of_nodup {l : List Col} (hnd : (l.map Col.name).Nodup) {c c0 : Col}
    {nm : String} (hc : c ∈ l) (hcn : c.name = nm)
    (hfind : l.find? (fun x => x.name == nm) = some c0) : c = c0 := by
  have hc0 : c0 ∈ l := List.mem_of_find?_eq_some hfind
  have hc0n : c0.name = nm := by simpa using List.find?_some hfind
  exact List.inj_on_of_nodup_map hnd hc hc0 (by rw [hcn, hc0n])

theorem foldl_codesStep (names : List String) :
    ∀ df : DF, (df.cols.map Col.name).Nodup →
      (names.foldl codesStep df).cols =
        df.cols.map (fun c => if c.name ∈ names then codedCol c else c) ∧
      (names.foldl codesStep df).index = df.index := by
  induction names with
  | nil =>
    intro df _
    simp
  | cons nm names ih =>
    intro df hnd
    rw [List.foldl_cons]
    have hnd2 : ((codesStep df nm).cols.map Col.name).Nodup := by
      rw [codesStep_names]
      exact hnd
    obtain ⟨hcols, hidx⟩ := ih (codesStep df nm) hnd2
    refine ⟨?_, by rw [hidx, codesStep_index]⟩
    rw [hcols]
    cases hfind : df.cols.find? (fun c => c.name == nm) with
    | none =>
      have hstep : codesStep df nm = df := by
        unfold codesStep
        rw [hfind]
      rw [hstep]
      apply List.map_congr_left
      intro c hc
      have hcnm : c.name ≠ nm := by
        intro he
        have := List.find?_eq_none.1 hfind c hc
        simp [he] at this
      simp [List.mem_cons, hcnm]
    | some c0 =>
      cases hdt : c0.dtype with
      | number =>
        have hstep : codesStep df nm = df := by
          simp only [codesStep, hfind, hdt]
        rw [hstep]
        apply List.map_congr_left
        intro c hc
        by_cases hcnm : c.name = nm
        · have hceq : c = c0 := eq_find?_col_of_nodup hnd hc hcnm hfind
          subst hceq
          have hcoded : codedCol c = c := codedCol_of_not_cat (by rw [hdt]; intro lv ob h; cases h)
          simp [List.mem_cons, hcnm, hcoded]
        · simp [List.mem_cons, hcnm]
      | obj =>
        have hstep : codesStep df nm = df := by
          simp only [codesStep, hfind, hdt]
        rw [hstep]
        apply List.map_congr_left
        intro c hc
        by_cases hcnm : c.name = nm
        · have hceq : c = c0 := eq_find?_col_of_nodup hnd hc hcnm hfind
          subst hceq
          have hcoded : codedCol c = c := codedCol_of_not_cat (by rw [hdt]; intro lv ob h; cases h)
          simp [List.mem_cons, hcnm, hcoded]
        · simp [List.mem_cons, hcnm]
      | cat lv ob =>
        have hstep : (codesStep df nm).cols = df.cols.map (fun c2 =>
            if c2.name == nm then
              { name := nm, dtype := Dtype.number, data := c0.data.map (codeCell lv) }
            else c2) := by
          simp only [codesStep, hfind, hdt]
        rw [hstep, List.map_map]
        apply List.map_congr_left
        intro c hc
        dsimp only [Function.comp]
        by_cases hcnm : c.name = nm
        · have hceq : c = c0 := eq_find?_col_of_nodup hnd hc hcnm hfind
          subst hceq
          have hbeq : (c.name == nm) = true := by simp [hcnm]
          have hcoded : codedCol c =
              { name := c.name, dtype := Dtype.number, data := c.data.map (codeCell lv) } :=
            codedCol_of_cat hdt
          simp only [hbeq, if_true]
          rw [hcoded, hcnm]
          by_cases hmem : nm ∈ names <;>
            simp [hmem, List.mem_cons, codedCol]
        · have hbeq : (c.name == nm) = false := by simp [hcnm]
          rw [hbeq]
          simp [List.mem_cons, hcnm]

theorem mem_catColNames {df : DF} {c : Col} {lv : List Value} {ob : Bool} (hc : c ∈ df.cols)
    (hdt : c.dtype = Dtype.cat lv ob) : c.name ∈ catColNames df := by
  unfold catColNames
  simp only [List.mem_map, List.mem_filter]
  exact ⟨c, ⟨hc, by rw [hdt]⟩, rfl⟩

theorem not_mem_catColNames {df : DF} {c : Col} (hnd : (df.cols.map Col.name).Nodup)
    (hc : c ∈ df.cols) (hncat : ∀ lv ob, c.dtype ≠ Dtype.cat lv ob) :
    c.name ∉ catColNames df := by
  intro hmem
  unfold catColNames at hmem
  simp only [List.mem_map, List.mem_filter] at hmem
  obtain ⟨c2, ⟨hc2mem, hc2cat⟩, hc2name⟩ := hmem
  have hceq : c2 = c := List.inj_on_of_nodup_map hnd hc2mem hc hc2name
  subst hceq
  cases hdt : c2.dtype with
  | number => rw [hdt] at hc2cat; simp at hc2cat
  | obj => rw [hdt] at hc2cat; simp at hc2cat
  | cat lv ob => exact hncat lv ob hdt

/-- C9: `score_dataset` mutates its argument `X` in place: in the state
it leaves behind, every categorical column of `X` has been replaced by
its integer category codes, every non-categorical column of `X` is
unchanged, and the target `y` is unchanged. -/
theorem c9_score_dataset_mutation (df : DF) (y : Nat → ℝ) (M : RegModel)
    (hnd : (df.cols.map Col.name).Nodup) :
    ((scoreDataset df y M).1.1.cols = df.cols.map codedCol) ∧
    ((scoreDataset df y M).1.1.index = df.index) ∧
    ((scoreDataset df y M).1.2 = y) ∧
    (∀ c ∈ df.cols, (∀ lv ob, c.dtype ≠ Dtype.cat lv ob) → codedCol c = c) := by
  have h1 : (scoreDataset df y M).1.1 = labelEncodeInPlace df := rfl
  have h2 : labelEncodeInPlace df = (catColNames df).foldl codesStep df := rfl
  obtain ⟨hcols, hidx⟩ := foldl_codesStep (catColNames df) df hnd
  refine ⟨?_, ?_, rfl, fun c _ h => codedCol_of_not_cat h⟩
  · rw [h1, h2, hcols]
    apply List.map_congr_left
    intro c hc
    by_cases hcat : ∃ lv ob, c.dtype = Dtype.cat lv ob
    · obtain ⟨lv, ob, hdt⟩ := hcat
      simp [mem_catColNames hc hdt]
    · push_neg at hcat
      simp [not_mem_catColNames hnd hc hcat, codedCol_of_not_cat hcat]
  · rw [h1, h2, hidx]

/-- A two-column frame (one categorical, one numeric) for the C9
witness. -/
def scoreWitnessDF : DF :=
  { index := [1],
    cols := [{ name := "Neighborhood", dtype := Dtype.cat [Value.str ("A")] false,
               data := [some (Value.str ("A"))] },
             { name := "LotArea", dtype := Dtype.number, data := [some (Value.num 100)] }] }

/-- Witness for C9 at a concrete frame and model. -/
theorem c9_score_dataset_mutation_witness :
    ((scoreWitnessDF.cols.map Col.name).Nodup) ∧
    (((scoreDataset scoreWitnessDF (fun _ => 1) (fun _ _ _ => 0)).1.1.cols =
        scoreWitnessDF.cols.map codedCol) ∧
      ((scoreDataset scoreWitnessDF (fun _ => 1) (fun _ _ _ => 0)).1.1.index =
        scoreWitnessDF.index) ∧
      ((scoreDataset scoreWitnessDF (fun _ => 1) (fun _ _ _ => 0)).1.2 = fun _ => 1) ∧
      (∀ c ∈ scoreWitnessDF.cols, (∀ lv ob, c.dtype ≠ Dtype.cat lv ob) → codedCol c = c)) :=
  ⟨by decide, c9_score_dataset_mutation scoreWitnessDF (fun _ => 1) (fun _ _ _ => 0) (by decide)⟩

theorem testIdx_length (n k : Nat) : (testIdx n k).length = foldSize n k := by
  simp [testIdx]

theorem sum_map_neg {α : Type} (l : List α) (f : α → ℝ) :
    (l.map (fun x => -(f x))).sum = -((l.map f).sum) := by
  induction l with
  | nil => simp
  | cons a t ih =>
    simp only [List.map_cons, List.sum_cons, ih]
    ring

/-- C5: `score_dataset` returns the square root of the mean, over the
five cross-validation folds, of the mean squared error between the
(fold-trained) model's predictions and the log-transformed target
`log y`; the model is both trained against and scored against `log y`. -/
theorem c5_score_dataset_rmsle (df : DF) (y : Nat → ℝ) (M : RegModel) :
    (scoreDataset df y M).2 =
      Real.sqrt ((((List.range 5).map (fun k =>
        (((testIdx (labelEncodeInPlace df).nrows k).map (fun i =>
          (M ((trainIdx (labelEncodeInPlace df).nrows k).map (rowCells (labelEncodeInPlace df)))
            ((trainIdx (labelEncodeInPlace df).nrows k).map (fun i2 => Real.log (y i2)))
            (rowCells (labelEncodeInPlace df) i) - Real.log (y i)) ^ 2)).sum) /
          (foldSize (labelEncodeInPlace df).nrows k : ℝ))).sum) / 5) := by
  unfold scoreDataset crossValNegMSE
  dsimp only
  simp only [List.length_map, List.length_range]
  congr 1
  rw [sum_map_neg]
  have he : ((List.range 5).map (fun k =>
      (((testIdx (labelEncodeInPlace df).nrows k).map (fun i =>
        (M ((trainIdx (labelEncodeInPlace df).nrows k).map (rowCells (labelEncodeInPlace df)))
          ((trainIdx (labelEncodeInPlace df).nrows k).map (fun i2 => Real.log (y i2)))
          (rowCells (labelEncodeInPlace df) i) - Real.log (y i)) ^ 2)).sum) /
        ((testIdx (labelEncodeInPlace df).nrows k).length : ℝ))).sum =
      ((List.range 5).map (fun k =>
      (((testIdx (labelEncodeInPlace df).nrows k).map (fun i =>
        (M ((trainIdx (labelEncodeInPlace df).nrows k).map (rowCells (labelEncodeInPlace df)))
          ((trainIdx (labelEncodeInPlace df).nrows k).map (fun i2 => Real.log (y i2)))
          (rowCells (labelEncodeInPlace df) i) - Real.log (y i)) ^ 2)).sum) /
        (foldSize (labelEncodeInPlace df).nrows k : ℝ))).sum := by
    apply congrArg
    apply List.map_congr_left
    intro k _
    rw [testIdx_length]
  rw [he]
  ring

/- ### counts lemmas -/

theorem getColData_length (df : DF) (hwf : WF df) (nm : String) :
    (getColData df nm).length = df.index.length := by
  unfold getColData
  cases hfind : df.cols.find? (fun c => c.name == nm) with
  | none => simp [DF.nrows]
  | some c => exact hwf c (List.mem_of_find?_eq_some hfind)

theorem zipWith_getElem?_some {α β γ : Type} (f : α → β → γ) {a : List α} {b : List β}
    {j : Nat} {x : α} {y : β} (ha : a[j]? = some x) (hb : b[j]? = some y) :
    (List.zipWith f a b)[j]? = some (f x y) := by
  induction a generalizing b j with
  | nil => simp at ha
  | cons x2 xs ih =>
    cases b with
    | nil => simp at hb
    | cons y2 ys =>
      cases j with
      | zero => simp_all
      | succ jj =>
        simp only [List.getElem?_cons_succ] at ha hb
        simp only [List.zipWith_cons_cons, List.getElem?_cons_succ]
        exact ih ha hb

theorem counts_cell (df : DF) (hwf : WF df) (j : Nat) (hj : j < df.index.length) :
    ((porchNames.map (fun nm =>
        (getColData df nm).map (fun o => if gtZero o then (1 : ℚ) else 0))).foldl
      (fun acc l => List.zipWith (fun a b => a + b) acc l)
      (List.replicate df.nrows (0 : ℚ)))[j]? =
    some ((((porchNames.map (fun nm => ((getColData df nm)[j]?).join)).countP gtZero : Nat) : ℚ)) := by
  have hcell : ∀ nm : String, (getColData df nm)[j]? = some (((getColData df nm)[j]?).join) := by
    intro nm
    have hlt : j < (getColData df nm).length := by
      rw [getColData_length df hwf nm]
      exact hj
    rw [List.getElem?_eq_getElem hlt]
    rfl
  have hli : ∀ nm : String,
      ((getColData df nm).map (fun o => if gtZero o then (1 : ℚ) else 0))[j]? =
        some (if gtZero (((getColData df nm)[j]?).join) then (1 : ℚ) else 0) := by
    intro nm
    rw [List.getElem?_map, hcell nm]
    rfl
  have hz : (List.replicate df.nrows (0 : ℚ))[j]? = some 0 := by
    have : j < df.nrows := hj
    simp [List.getElem?_replicate, this]
  simp only [porchNames, List.map_cons, List.map_nil, List.foldl_cons, List.foldl_nil]
  have h1 := zipWith_getElem?_some (fun a b => a + b) hz (hli "WoodDeckSF")
  have h2 := zipWith_getElem?_some (fun a b => a + b) h1 (hli "OpenPorchSF")
  have h3 := zipWith_getElem?_some (fun a b => a + b) h2 (hli "EnclosedPorch")
  have h4 := zipWith_getElem?_some (fun a b => a + b) h3 (hli "Threeseasonporch")
  have h5 := zipWith_getElem?_some (fun a b => a + b) h4 (hli "ScreenPorch")
  rw [h5]
  simp only [List.countP_cons, List.countP_nil, Option.some.injEq]
  push_cast
  ring

/-- C10: the `PorchTypes` feature built by `counts` equals, for each
row, the number of the five porch-area columns whose value at that row
is strictly greater than zero, an integer count of at most five. -/
theorem c10_porch_types (df : DF) (hwf : WF df) (j : Nat) (hj : j < df.index.length) :
    ∃ c, (counts df).cols = [c] ∧ c.name = "PorchTypes" ∧ c.dtype = Dtype.number ∧
      c.data[j]? = some (some (Value.num
        (((porchNames.map (fun nm => ((getColData df nm)[j]?).join)).countP gtZero : Nat) : ℚ))) ∧
      (porchNames.map (fun nm => ((getColData df nm)[j]?).join)).countP gtZero ≤ 5 := by
  refine ⟨_, rfl, rfl, rfl, ?_, ?_⟩
  · show (((porchNames.map (fun nm =>
        (getColData df nm).map (fun o => if gtZero o then (1 : ℚ) else 0))).foldl
        (fun acc l => List.zipWith (fun a b => a + b) acc l)
        (List.replicate df.nrows (0 : ℚ))).map (fun q => some (Value.num q)))[j]? = _
    rw [List.getElem?_map, counts_cell df hwf j hj]
    rfl
  · have hle := List.countP_le_length (p := gtZero)
      (l := porchNames.map (fun nm => ((getColData df nm)[j]?).join))
    simpa [porchNames] using hle

/-- A five-porch-column frame for the C10 witness. -/
def porchWitnessDF : DF :=
  { index := [1],
    cols := [{ name := "WoodDeckSF", dtype := Dtype.number, data := [some (Value.num 10)] },
             { name := "OpenPorchSF", dtype := Dtype.number, data := [some (Value.num 0)] },
             { name := "EnclosedPorch", dtype := Dtype.number, data := [none] },
             { name := "Threeseasonporch", dtype := Dtype.number, data := [some (Value.num 3)] },
             { name := "ScreenPorch", dtype := Dtype.number, data := [some (Value.num 0)] }] }

/-- Witness for C10 at a concrete frame. -/
theorem c10_porch_types_witness :
    (WF porchWitnessDF ∧ (0 : Nat) < porchWitnessDF.index.length) ∧
    (∃ c, (counts porchWitnessDF).cols = [c] ∧ c.name = "PorchTypes" ∧
      c.dtype = Dtype.number ∧
      c.data[0]? = some (some (Value.num
        (((porchNames.map (fun nm =>
          ((getColData porchWitnessDF nm)[0]?).join)).countP gtZero : Nat) : ℚ))) ∧
      (porchNames.map (fun nm =>
        ((getColData porchWitnessDF nm)[0]?).join)).countP gtZero ≤ 5) :=
  ⟨⟨by decide, by decide⟩, c10_porch_types porchWitnessDF (by decide) 0 (by decide)⟩

/-- C6: the submission export cell builds a single CSV whose first
record is the header with exactly the two column names `Id` and
`SalePrice`, with one further record per test row, each of exactly two
fields — no extra index column, as `to_csv` is called with
`index=False`. -/
theorem c6_submission_csv (ids preds : List String) (hlen : preds.length = ids.length) :
    ∃ csv, submissionCsv ids preds = some csv ∧ csv.head? = some ["Id", "SalePrice"] ∧
      csv.length = ids.length + 1 ∧ ∀ r ∈ csv, r.length = 2 := by
  have hsome : submissionCsv ids preds =
      some (toCsv { names := ["Id", "SalePrice"], colsS := [ids, preds] } false) := by
    unfold submissionCsv mkFrameDict
    simp [hlen]
  refine ⟨_, hsome, ?_, ?_, ?_⟩
  · simp [toCsv]
  · simp [toCsv]
  · intro r hr
    simp only [toCsv, Bool.false_eq_true, if_false, List.nil_append, List.mem_cons,
      List.mem_map, List.mem_range] at hr
    rcases hr with rfl | ⟨i, -, rfl⟩
    · rfl
    · rfl

/-- Witness for C6 with a one-row test set. -/
theorem c6_submission_csv_witness :
    ((["181000.5"] : List String).length = (["1461"] : List String).length) ∧
    (∃ csv, submissionCsv ["1461"] ["181000.5"] = some csv ∧
      csv.head? = some ["Id", "SalePrice"] ∧
      csv.length = (["1461"] : List String).length + 1 ∧ ∀ r ∈ csv, r.length = 2) :=
  ⟨rfl, c6_submission_csv ["1461"] ["181000.5"] rfl⟩

/- ### load_data lemmas -/

theorem concatDF_index (a b : DF) : (concatDF a b).index = a.index ++ b.index := rfl

theorem clean_index (df : DF) : (clean df).index = df.index := rfl

theorem encode_index (df : DF) : (encode df).index = df.index := rfl

theorem concatDF_wf {a b : DF} (hwa : WF a) (hwb : WF b) :
    ∀ c ∈ (concatDF a b).cols, c.data.length = a.index.length + b.index.length := by
  intro c hc
  unfold concatDF at hc
  rw [List.mem_append] at hc
  rcases hc with hc | hc
  · simp only [List.mem_map] at hc
    obtain ⟨c0, hc0, rfl⟩ := hc
    cases hfind : b.cols.find? (fun c2 => c2.name == c0.name) with
    | some c2 =>
      simp only [hfind]
      simp [hwa c0 hc0, hwb c2 (List.mem_of_find?_eq_some hfind)]
    | none =>
      simp only [hfind]
      simp [hwa c0 hc0, DF.nrows]
  · simp only [List.mem_map] at hc
    obtain ⟨c2, hc2, rfl⟩ := hc
    have hc2b : c2 ∈ b.cols := List.mem_of_mem_filter hc2
    simp [hwb c2 hc2b, DF.nrows]

theorem cleanE2nd_wf {df : DF} (hwf : WF df) : WF (cleanE2nd df) := by
  intro c hc
  simp only [cleanE2nd, List.mem_map] at hc
  obtain ⟨c0, hc0, rfl⟩ := hc
  show _ = df.index.length
  split <;> simp [hwf c0 hc0]

theorem cleanGarage_wf {df : DF} (hwf : WF df) : WF (cleanGarage df) := by
  intro c hc
  simp only [cleanGarage, List.mem_map] at hc
  obtain ⟨c0, hc0, rfl⟩ := hc
  show _ = df.index.length
  split
  · simp [List.length_zipWith, hwf c0 hc0, getColData_length df hwf]
  · exact hwf c0 hc0

theorem renameCols_wf {df : DF} (hwf : WF df) : WF (renameCols df) := by
  intro c hc
  simp only [renameCols, List.mem_map] at hc
  obtain ⟨c0, hc0, rfl⟩ := hc
  exact hwf c0 hc0

theorem clean_wf {df : DF} (hwf : WF df) : WF (clean df) :=
  renameCols_wf (cleanGarage_wf (cleanE2nd_wf hwf))

theorem encodeCol_data_length (c : Col) : (encodeCol c).data.length = c.data.length := by
  unfold encodeCol
  split
  · simp only [ordEncodeCol, List.length_map]
    split <;> rfl
  · split <;> rfl

theorem encode_wf {df : DF} (hwf : WF df) : WF (encode df) := by
  intro c hc
  simp only [encode, List.mem_map] at hc
  obtain ⟨c0, hc0, rfl⟩ := hc
  show _ = df.index.length
  rw [encodeCol_data_length]
  exact hwf c0 hc0

theorem imputeCol_data_length (c : Col) : (imputeCol c).data.length = c.data.length := by
  unfold imputeCol
  split <;> simp

theorem impute_wf {df df2 : DF} (hwf : WF df) (h : impute df = some df2) : WF df2 := by
  obtain ⟨-, rfl⟩ := impute_eq_some h
  intro c hc
  simp only [List.mem_map] at hc
  obtain ⟨c0, hc0, rfl⟩ := hc
  show _ = df.index.length
  rw [imputeCol_data_length]
  exact hwf c0 hc0

theorem idxOf?_of_nodup {l : List Int} (hnd : l.Nodup) {i : Nat} {x : Int}
    (h : l[i]? = some x) : idxOf? x l = some i := by
  induction l generalizing i with
  | nil => simp at h
  | cons y ys ih =>
    cases i with
    | zero =>
      simp only [List.getElem?_cons_zero, Option.some.injEq] at h
      subst h
      simp [idxOf?]
    | succ j =>
      simp only [List.getElem?_cons_succ] at h
      have hyx : y ≠ x := by
        intro he
        subst he
        exact (List.nodup_cons.1 hnd).1 (List.getElem?_mem h)
      simp only [idxOf?, hyx, if_false]
      rw [ih (List.nodup_cons.1 hnd).2 h]
      rfl

theorem locRows_take {df2 : DF} {pre post : List Int} (hidx : df2.index = pre ++ post)
    (hnd : (pre ++ post).Nodup)
    (hwf : ∀ c ∈ df2.cols, c.data.length = pre.length + post.length) :
    (locRows df2 pre).cols =
      df2.cols.map (fun c => { c with data := c.data.take pre.length }) := by
  have hndi : df2.index.Nodup := by
    rw [hidx]
    exact hnd
  have hcols : (locRows df2 pre).cols = df2.cols.map (fun c =>
      { c with data := pre.map (fun l => match idxOf? l df2.index with
        | some p => (c.data.get? p).join
        | none => none) }) := rfl
  rw [hcols]
  apply List.map_congr_left
  intro c hc
  have heq : pre.map (fun l => match idxOf? l df2.index with
      | some p => (c.data.get? p).join
      | none => none) = c.data.take pre.length := by
    apply List.ext_getElem?
    intro i
    by_cases hi : i < pre.length
    · have hpre : pre[i]? = some pre[i] := List.getElem?_eq_getElem hi
      rw [List.getElem?_map, hpre]
      have hglobal : df2.index[i]? = some pre[i] := by
        rw [hidx, List.getElem?_append]
        simp [hi, hpre]
      have hio : idxOf? pre[i] df2.index = some i := idxOf?_of_nodup hndi hglobal
      have hlt : i < c.data.length := by
        rw [hwf c hc]
        omega
      simp only [Option.map_some', hio, List.get?_eq_getElem?, List.getElem?_eq_getElem hlt,
        Option.join]
      rw [List.getElem?_take]
      simp [hi, List.getElem?_eq_getElem hlt]
    · have hl : (pre.map (fun l => match idxOf? l df2.index with
          | some p => (c.data.get? p).join
          | none => none)).length ≤ i := by
        simp only [List.length_map]
        omega
      have hr : (c.data.take pre.length).length ≤ i := by
        simp only [List.length_take]
        omega
      rw [List.getElem?_eq_none hl, List.getElem?_eq_none hr]
  rw [heq]

theorem locRows_drop {df2 : DF} {pre post : List Int} (hidx : df2.index = pre ++ post)
    (hnd : (pre ++ post).Nodup)
    (hwf : ∀ c ∈ df2.cols, c.data.length = pre.length + post.length) :
    (locRows df2 post).cols =
      df2.cols.map (fun c => { c with data := c.data.drop pre.length }) := by
  have hndi : df2.index.Nodup := by
    rw [hidx]
    exact hnd
  have hcols : (locRows df2 post).cols = df2.cols.map (fun c =>
      { c with data := post.map (fun l => match idxOf? l df2.index with
        | some p => (c.data.get? p).join
        | none => none) }) := rfl
  rw [hcols]
  apply List.map_congr_left
  intro c hc
  have heq : post.map (fun l => match idxOf? l df2.index with
      | some p => (c.data.get? p).join
      | none => none) = c.data.drop pre.length := by
    apply List.ext_getElem?
    intro j
    by_cases hj : j < post.length
    · have hpost : post[j]? = some post[j] := List.getElem?_eq_getElem hj
      rw [List.getElem?_map, hpost]
      have hglobal : df2.index[pre.length + j]? = some post[j] := by
        rw [hidx, List.getElem?_append_right (by omega)]
        rw [show pre.length + j - pre.length = j by omega]
        exact hpost
      have hio : idxOf? post[j] df2.index = some (pre.length + j) :=
        idxOf?_of_nodup hndi hglobal
      have hlt : pre.length + j < c.data.length := by
        rw [hwf c hc]
        omega
      simp only [Option.map_some', hio, List.get?_eq_getElem?, List.getElem?_eq_getElem hlt,
        Option.join]
      rw [List.getElem?_drop]
      simp [List.getElem?_eq_getElem hlt]
    · have hl : (post.map (fun l => match idxOf? l df2.index with
          | some p => (c.data.get? p).join
          | none => none)).length ≤ j := by
        simp only [List.length_map]
        omega
      have hr : (c.data.drop pre.length).length ≤ j := by
        simp only [List.length_drop]
        have := hwf c hc
        omega
      rw [List.getElem?_eq_none hl, List.getElem?_eq_none hr]
  rw [heq]

/-- C4: `load_data` concatenates the train and test frames, applies
`clean`, then `encode`, then `impute`, in that order, and reforms the
two splits by their original row labels: with distinct labels the train
split recovers exactly the first block of preprocessed rows under the
train index and the test split the remaining block under the test
index. -/
theorem c4_load_data (a b df2 : DF) (hwa : WF a) (hwb : WF b)
    (hnd : (a.index ++ b.index).Nodup)
    (h : impute (encode (clean (concatDF a b))) = some df2) :
    loadData a b = some (locRows df2 a.index, locRows df2 b.index) ∧
    (locRows df2 a.index).index = a.index ∧
    (locRows df2 b.index).index = b.index ∧
    (locRows df2 a.index).cols =
      df2.cols.map (fun c => { c with data := c.data.take a.index.length }) ∧
    (locRows df2 b.index).cols =
      df2.cols.map (fun c => { c with data := c.data.drop a.index.length }) := by
  have hidx2 : df2.index = a.index ++ b.index := by
    rw [(impute_name_dtype h).2, encode_index, clean_index, concatDF_index]
  have hwf0 : WF (concatDF a b) := by
    intro c hc
    rw [concatDF_index, List.length_append]
    exact concatDF_wf hwa hwb c hc
  have hwf2 : ∀ c ∈ df2.cols, c.data.length = a.index.length + b.index.length := by
    intro c hc
    rw [impute_wf (encode_wf (clean_wf hwf0)) h c hc, hidx2, List.length_append]
  refine ⟨?_, rfl, rfl, locRows_take hidx2 hnd hwf2, locRows_drop hidx2 hnd hwf2⟩
  unfold loadData
  rw [h]
  rfl

/-- A one-row train frame for the C4 witness. -/
def trainToyDF : DF :=
  { index := [1],
    cols := [{ name := "LotArea", dtype := Dtype.number, data := [some (Value.num 100)] }] }

/-- A one-row test frame for the C4 witness (its target-like cell is
missing, as in the merged competition data). -/
def testToyDF : DF :=
  { index := [2],
    cols := [{ name := "LotArea", dtype := Dtype.number, data := [none] }] }

/-- The preprocessed concatenation of the two toy frames. -/
def processedToyDF : DF :=
  { index := [1, 2],
    cols := [{ name := "LotArea", dtype := Dtype.number,
               data := [some (Value.num 100), some (Value.num 0)] }] }

/-- Witness for C4 at the two toy frames. -/
theorem c4_load_data_witness :
    (WF trainToyDF ∧ WF testToyDF ∧ (trainToyDF.index ++ testToyDF.index).Nodup ∧
      impute (encode (clean (concatDF trainToyDF testToyDF))) = some processedToyDF) ∧
    (loadData trainToyDF testToyDF =
        some (locRows processedToyDF trainToyDF.index, locRows processedToyDF testToyDF.index) ∧
      (locRows processedToyDF trainToyDF.index).index = trainToyDF.index ∧
      (locRows processedToyDF testToyDF.index).index = testToyDF.index ∧
      (locRows processedToyDF trainToyDF.index).cols =
        processedToyDF.cols.map (fun c =>
          { c with data := c.data.take trainToyDF.index.length }) ∧
      (locRows processedToyDF testToyDF.index).cols =
        processedToyDF.cols.map (fun c =>
          { c with data := c.data.drop trainToyDF.index.length })) :=
  ⟨⟨by decide, by decide, by decide, by decide⟩,
    c4_load_data trainToyDF testToyDF processedToyDF (by decide) (by decide) (by decide)
      (by decide)⟩
